import Mathlib

/-!
Verification of the RAG answer-assembly core of a document question-answering
pipeline. The definitions below are a shallow embedding of
`src/backend/core/rag_answer.py`: pure Python functions become Lean functions,
the external embedding / vector-index / chat-completion services become
function parameters, Python floats (similarity scores) are modelled as
rationals (`ℚ`), Python strings as Lean `String`, and the fatal startup check
becomes an `Except`-valued initializer. The number of chat-completion calls a
code path performs is modelled explicitly as a `Nat` component of the result,
so that "does not invoke the language model" is a provable statement.
-/

/-- Configuration constant `MAX_CONTEXT_CHARS = 6000` from rag_answer.py. -/
def MAX_CONTEXT_CHARS : Nat := 6000

/-- Configuration constant `TOP_K = 5` from rag_answer.py. -/
def TOP_K : Nat := 5

/-- Configuration constant `INDEX_NAME` from rag_answer.py. -/
def INDEX_NAME : String := "pdf-qa-embeddings"

/-- Embedding of the `RetrievedChunk` dataclass: filename, chunk id, content
and the similarity score (a Python float, modelled as `ℚ`). -/
structure RetrievedChunk where
  filename : String
  chunk_id : Int
  content : String
  score : ℚ
deriving DecidableEq

/-- Truthiness of an `os.getenv` result: `None` and the empty string are
falsy in Python. -/
def pyFalsy : Option String → Bool
  | none => true
  | some s => s.isEmpty

/-- Embedding of the module-level startup check (rag_answer.py lines 15-26):
`raise RuntimeError` when either API key is missing, modelled as `Except`. -/
def initCore (openaiKey pineconeKey : Option String) : Except String Unit :=
  if pyFalsy openaiKey then Except.error "OPENAI_API_KEY missing"
  else if pyFalsy pineconeKey then Except.error "PINECONE_API_KEY missing"
  else Except.ok ()

/-- Metadata of one Pinecone match; each expected key may be absent. -/
structure PineMeta where
  filename? : Option String := none
  chunk_id? : Option Int := none
  content? : Option String := none
deriving DecidableEq

/-- One match returned by `index.query`: `metadata` may be `None` altogether
(`m.metadata or {}`), and the match may lack a `score` attribute
(`hasattr(m, "score")`). -/
structure PineMatch where
  metadata : Option PineMeta := none
  score? : Option ℚ := none
deriving DecidableEq

/-- The query response: `resp.matches` may be `None` (`resp.matches or []`);
the field is called `qmatches` because `matches` is reserved in Lean. -/
structure QueryResponse where
  qmatches : Option (List PineMatch) := none

/-- Embedding of the per-match body of `retrieve_chunks`: missing metadata
fields get the defaults `"unknown"`, `-1`, `""`, and a missing score `0.0`. -/
def parseMatch (m : PineMatch) : RetrievedChunk :=
  let md := m.metadata.getD {}
  { filename := md.filename?.getD "unknown"
    chunk_id := md.chunk_id?.getD (-1)
    content := md.content?.getD ""
    score := m.score?.getD 0 }

/-- Embedding of `retrieve_chunks` (rag_answer.py lines 43-62), parametrised
by the already-received query response. -/
def retrieve_chunks (resp : QueryResponse) : List RetrievedChunk :=
  (resp.qmatches.getD []).map parseMatch

/-- The source tag `f"[{ch.filename}#{ch.chunk_id}]"`. -/
def tagOf (c : RetrievedChunk) : String :=
  "[" ++ c.filename ++ "#" ++ toString c.chunk_id ++ "]"

/-- The rendered block `f"{tag}\n{ch.content}\n"` of one chunk. -/
def blockOf (c : RetrievedChunk) : String :=
  tagOf c ++ "\n" ++ c.content ++ "\n"

/-- Insert a chunk into an (already sorted, descending-by-score) list, after
all strictly higher-scored elements and before the first element whose score
is less than or equal. Together with `sortByScoreDesc` this is the unique
stable descending sort, the behaviour of Python
`sorted(chunks, key=lambda c: c.score, reverse=True)`. -/
def insertDesc (c : RetrievedChunk) : List RetrievedChunk → List RetrievedChunk
  | [] => [c]
  | d :: rest => if c.score < d.score then d :: insertDesc c rest else c :: d :: rest

/-- Stable descending sort by score, the embedding of
`sorted(chunks, key=lambda c: c.score, reverse=True)` from `build_context`. -/
def sortByScoreDesc : List RetrievedChunk → List RetrievedChunk
  | [] => []
  | c :: rest => insertDesc c (sortByScoreDesc rest)

/-- Embedding of the greedy packing loop of `build_context`: walk the ranked
chunks keeping a running total of block lengths; stop at the first block that
would push the total over `maxChars`. Returns the list of included blocks. -/
def packBlocks (maxChars : Nat) : List RetrievedChunk → Nat → List String
  | [], _ => []
  | c :: rest, total =>
    if total + (blockOf c).length > maxChars then []
    else blockOf c :: packBlocks maxChars rest (total + (blockOf c).length)

/-- The chunks whose blocks `packBlocks` includes (same loop, returning the
chunks themselves instead of their rendered blocks). -/
def takeFitting (maxChars : Nat) : List RetrievedChunk → Nat → List RetrievedChunk
  | [], _ => []
  | c :: rest, total =>
    if total + (blockOf c).length > maxChars then []
    else c :: takeFitting maxChars rest (total + (blockOf c).length)

/-- Embedding of Python `sep.join(parts)`. -/
def joinSep (sep : String) : List String → String
  | [] => ""
  | [a] => a
  | a :: b :: rest => a ++ sep ++ joinSep sep (b :: rest)

/-- Embedding of `build_context` (rag_answer.py lines 64-80). -/
def build_context (chunks : List RetrievedChunk) : String :=
  joinSep "\n---\n" (packBlocks MAX_CONTEXT_CHARS (sortByScoreDesc chunks) 0)

/-- The fixed fallback answer returned when the context is blank. -/
def FALLBACK : String :=
  "I couldn\x27t find relevant context for your question in the knowledge base."

/-- The fixed system instruction of the prompt (rag_answer.py lines 82-89). -/
def SYSTEM_PROMPT : String :=
  "You are a careful assistant for answering questions using provided document context. " ++
  "Follow the rules strictly:\n" ++
  "1) Use ONLY the provided context to answer. If the answer is not present, say you don\x27t know.\n" ++
  "2) Be concise and factual. Do not invent details beyond the context.\n" ++
  "3) After any specific claim, include inline citations like [filename#chunkId].\n" ++
  "4) If multiple places support a claim, cite the strongest one or two."

/-- Python `str.isspace` characters relevant to `str.strip()` (ASCII range). -/
def pyIsSpace (c : Char) : Bool :=
  c = ' ' || c = '\t' || c = '\n' || c = '\r' || c = '\x0b' || c = '\x0c'

/-- Embedding of Python `s.strip()`: remove leading and trailing whitespace. -/
def pyStrip (s : String) : String :=
  String.mk (((s.data.dropWhile pyIsSpace).reverse.dropWhile pyIsSpace).reverse)

/-- The user turn of the prompt built by `answer_with_context`. -/
def userPrompt (question ctx : String) : String :=
  "Question:\n" ++ question ++ "\n\n" ++ "Context:\n" ++ ctx ++ "\n\n" ++
  "Answer (use citations like [filename#chunkId]):"

/-- Embedding of `answer_with_context` (rag_answer.py lines 91-112). The chat
model is the parameter `llm` (system message, user message → completion); the
second component of the result counts how many completion calls were made. -/
def answer_with_context (llm : String → String → String)
    (question ctx : String) : String × Nat :=
  if pyStrip ctx = "" then (FALLBACK, 0)
  else (pyStrip (llm SYSTEM_PROMPT (userPrompt question ctx)), 1)

/-- One entry of the `sources` list returned by `rag_answer`. -/
structure SourceEntry where
  filename : String
  chunk_id : Int
  score : ℚ
deriving DecidableEq

/-- Round half to even (Python `round`) at the integer scale. -/
def roundHalfEven (q : ℚ) : ℤ :=
  let fl := ⌊q⌋
  let r := q - fl
  if r < 1/2 then fl
  else if 1/2 < r then fl + 1
  else if fl % 2 = 0 then fl else fl + 1

/-- Python `round(x, 4)`: round half to even at four decimal digits. -/
def round4 (q : ℚ) : ℚ := (roundHalfEven (q * 10000) : ℚ) / 10000

/-- The projection `{"filename": h.filename, "chunk_id": h.chunk_id,
"score": round(h.score, 4)}` from rag_answer.py line 119. -/
def srcOf (h : RetrievedChunk) : SourceEntry :=
  { filename := h.filename, chunk_id := h.chunk_id, score := round4 h.score }

/-- The dictionary returned by `rag_answer`. -/
structure RagResult where
  answer : String
  sources : List SourceEntry
deriving DecidableEq

/-- Embedding of `rag_answer` (rag_answer.py lines 114-120), parametrised by
the retrieval service (question → query response) and the chat model. The
`Nat` component counts chat-completion calls. -/
def rag_answer (search : String → QueryResponse)
    (llm : String → String → String) (question : String) : RagResult × Nat :=
  ({ answer := (answer_with_context llm question
        (build_context (retrieve_chunks (search question)))).1
     sources := (retrieve_chunks (search question)).map srcOf },
   (answer_with_context llm question
        (build_context (retrieve_chunks (search question)))).2)

/-- The descending-score ordering relation used by the sort. -/
def scoreGE (a b : RetrievedChunk) : Prop := b.score ≤ a.score

/-- Boolean test that a chunk has exactly score `s` (used to state sort
stability). -/
def scoreEq (s : ℚ) (c : RetrievedChunk) : Bool := decide (c.score = s)

theorem mem_insertDesc (c x : RetrievedChunk) :
    ∀ l, x ∈ insertDesc c l ↔ x = c ∨ x ∈ l
  | [] => by simp [insertDesc]
  | d :: rest => by
    by_cases h : c.score < d.score
    · simp only [insertDesc, if_pos h, List.mem_cons, mem_insertDesc c x rest]
      tauto
    · simp only [insertDesc, if_neg h, List.mem_cons]

theorem pairwise_insertDesc (c : RetrievedChunk) :
    ∀ l, l.Pairwise scoreGE → (insertDesc c l).Pairwise scoreGE
  | [], _ => by simp [insertDesc, scoreGE]
  | d :: rest, h => by
    rcases List.pairwise_cons.mp h with ⟨hd, hrest⟩
    by_cases hlt : c.score < d.score
    · rw [insertDesc, if_pos hlt]
      refine List.pairwise_cons.mpr ⟨?_, pairwise_insertDesc c rest hrest⟩
      intro x hx
      rcases (mem_insertDesc c x rest).mp hx with rfl | hxr
      · exact le_of_lt hlt
      · exact hd x hxr
    · rw [insertDesc, if_neg hlt]
      refine List.pairwise_cons.mpr ⟨?_, h⟩
      intro x hx
      rcases List.mem_cons.mp hx with rfl | hxr
      · exact not_lt.mp hlt
      · exact le_trans (hd x hxr) (not_lt.mp hlt)

theorem pairwise_sortByScoreDesc :
    ∀ l : List RetrievedChunk, (sortByScoreDesc l).Pairwise scoreGE
  | [] => by simp [sortByScoreDesc]
  | c :: rest => pairwise_insertDesc c _ (pairwise_sortByScoreDesc rest)

theorem perm_insertDesc (c : RetrievedChunk) :
    ∀ l, (insertDesc c l).Perm (c :: l)
  | [] => by simp [insertDesc]
  | d :: rest => by
    by_cases h : c.score < d.score
    · rw [insertDesc, if_pos h]
      exact ((perm_insertDesc c rest).cons d).trans (List.Perm.swap c d rest)
    · rw [insertDesc, if_neg h]

theorem perm_sortByScoreDesc : ∀ l : List RetrievedChunk, (sortByScoreDesc l).Perm l
  | [] => List.Perm.rfl
  | c :: rest =>
    (perm_insertDesc c (sortByScoreDesc rest)).trans ((perm_sortByScoreDesc rest).cons c)

theorem filter_insertDesc (c : RetrievedChunk) (s : ℚ) :
    ∀ l : List RetrievedChunk, (insertDesc c l).filter (scoreEq s) =
      if c.score = s then c :: l.filter (scoreEq s) else l.filter (scoreEq s)
  | [] => by
    by_cases hcs : c.score = s <;> simp [insertDesc, List.filter, scoreEq, hcs]
  | d :: rest => by
    by_cases hlt : c.score < d.score
    · rw [insertDesc, if_pos hlt, List.filter_cons, filter_insertDesc c s rest]
      by_cases hcs : c.score = s
      · have hds : ¬ d.score = s := fun hd => by
          rw [← hcs] at hd
          exact absurd hd (ne_of_gt hlt)
        simp [scoreEq, hcs, hds, List.filter_cons]
      · simp [scoreEq, hcs, List.filter_cons]
    · rw [insertDesc, if_neg hlt]
      by_cases hcs : c.score = s <;> simp [List.filter_cons, scoreEq, hcs]

theorem filter_sortByScoreDesc (s : ℚ) :
    ∀ l : List RetrievedChunk,
      (sortByScoreDesc l).filter (scoreEq s) = l.filter (scoreEq s)
  | [] => rfl
  | c :: rest => by
    rw [sortByScoreDesc, filter_insertDesc, filter_sortByScoreDesc s rest,
      List.filter_cons]
    by_cases hcs : c.score = s <;> simp [scoreEq, hcs]

theorem mem_takeFitting (maxChars : Nat) (x : RetrievedChunk) :
    ∀ (l : List RetrievedChunk) (t : Nat), x ∈ takeFitting maxChars l t → x ∈ l
  | [], t => by simp [takeFitting]
  | c :: rest, t => by
    rw [takeFitting]
    split
    · simp
    · intro hx
      rcases List.mem_cons.mp hx with rfl | h
      · exact List.mem_cons_self _ _
      · exact List.mem_cons_of_mem _ (mem_takeFitting maxChars x rest _ h)

theorem pairwise_takeFitting (maxChars : Nat) :
    ∀ (l : List RetrievedChunk) (t : Nat),
      l.Pairwise scoreGE → (takeFitting maxChars l t).Pairwise scoreGE
  | [], _, _ => by simp [takeFitting]
  | c :: rest, t, h => by
    rcases List.pairwise_cons.mp h with ⟨hd, hrest⟩
    rw [takeFitting]
    split
    · exact List.Pairwise.nil
    · exact List.pairwise_cons.mpr
        ⟨fun x hx => hd x (mem_takeFitting _ _ _ _ hx),
         pairwise_takeFitting maxChars rest _ hrest⟩

theorem packBlocks_eq_map (maxChars : Nat) :
    ∀ (l : List RetrievedChunk) (t : Nat),
      packBlocks maxChars l t = (takeFitting maxChars l t).map blockOf
  | [], _ => rfl
  | c :: rest, t => by
    by_cases h : t + (blockOf c).length > maxChars
    · simp [packBlocks, takeFitting, h]
    · simp [packBlocks, takeFitting, h, packBlocks_eq_map maxChars rest _]

/-- Total length of a list of strings. -/
def sumLen (l : List String) : Nat := (l.map String.length).sum

theorem packBlocks_budget (maxChars : Nat) :
    ∀ (l : List RetrievedChunk) (t : Nat), t ≤ maxChars →
      t + sumLen (packBlocks maxChars l t) ≤ maxChars
  | [], t, h => by simpa [packBlocks, sumLen] using h
  | c :: rest, t, h => by
    by_cases hov : t + (blockOf c).length > maxChars
    · simpa [packBlocks, hov, sumLen] using h
    · have h2 : t + (blockOf c).length ≤ maxChars := not_lt.mp hov
      have ih := packBlocks_budget maxChars rest (t + (blockOf c).length) h2
      simp only [packBlocks, if_neg hov, sumLen, List.map_cons, List.sum_cons] at ih ⊢
      omega

theorem joinSep_len (sep : String) :
    ∀ parts : List String,
      (joinSep sep parts).length = sumLen parts + sep.length * (parts.length - 1)
  | [] => by simp [joinSep, sumLen]
  | [a] => by simp [joinSep, sumLen]
  | a :: b :: rest => by
    have ih := joinSep_len sep (b :: rest)
    simp only [joinSep, String.length_append, sumLen, List.map_cons, List.sum_cons,
      List.length_cons, Nat.add_sub_cancel] at ih ⊢
    rw [ih, Nat.mul_succ]
    omega

theorem build_context_oversized (chunks : List RetrievedChunk)
    (hbig : ∀ c ∈ chunks, MAX_CONTEXT_CHARS < (blockOf c).length) :
    build_context chunks = "" := by
  unfold build_context
  cases hs : sortByScoreDesc chunks with
  | nil => simp [packBlocks, joinSep]
  | cons c rest =>
    have hc : c ∈ chunks :=
      (perm_sortByScoreDesc chunks).mem_iff.mp (hs ▸ List.mem_cons_self c rest)
    simp [packBlocks, joinSep, hbig c hc]

/-- A concrete chunk whose content is `n` copies of the letter x, used to
exercise the character budget at exact boundaries. -/
def exChunk (name : String) (i : Int) (n : Nat) : RetrievedChunk :=
  ⟨name, i, (List.replicate n 'x').asString, mkRat 1 2⟩

theorem blockOf_exChunk (name : String) (i : Int) (n : Nat) :
    (blockOf (exChunk name i n)).length = name.length + (toString i).length + n + 5 := by
  simp [blockOf, tagOf, exChunk, String.length_append,
    show ("[" : String).length = 1 from rfl, show ("#" : String).length = 1 from rfl,
    show ("]" : String).length = 1 from rfl, show ("\n" : String).length = 1 from rfl]
  omega

/-- Two chunks whose rendered blocks are each exactly 3000 characters long. -/
def bigA : RetrievedChunk := exChunk "a" 0 2993

/-- Second 3000-character-block chunk, equal score to `bigA`. -/
def bigB : RetrievedChunk := exChunk "b" 1 2993

theorem blockOf_bigA : (blockOf bigA).length = 3000 := by
  rw [bigA, blockOf_exChunk]
  decide

theorem blockOf_bigB : (blockOf bigB).length = 3000 := by
  rw [bigB, blockOf_exChunk]
  decide

theorem sort_big : sortByScoreDesc [bigA, bigB] = [bigA, bigB] := by
  have hsc : ¬ bigA.score < bigB.score := by
    have h : bigA.score = bigB.score := rfl
    rw [h]
    exact lt_irrefl _
  simp only [sortByScoreDesc, insertDesc, if_neg hsc]

theorem pack_big :
    packBlocks MAX_CONTEXT_CHARS [bigA, bigB] 0 = [blockOf bigA, blockOf bigB] := by
  simp [packBlocks, blockOf_bigA, blockOf_bigB, MAX_CONTEXT_CHARS]

/-- A Pinecone match carrying exactly the data of a given chunk. -/
def matchOf (c : RetrievedChunk) : PineMatch :=
  ⟨some ⟨some c.filename, some c.chunk_id, some c.content⟩, some c.score⟩

theorem parseMatch_matchOf (c : RetrievedChunk) : parseMatch (matchOf c) = c := rfl

theorem retrieve_chunks_matchOf (hits : List RetrievedChunk) :
    retrieve_chunks ⟨some (hits.map matchOf)⟩ = hits := by
  induction hits with
  | nil => rfl
  | cons c rest ih =>
    show parseMatch (matchOf c) :: (rest.map matchOf).map parseMatch = c :: rest
    exact congrArg₂ List.cons (parseMatch_matchOf c) ih

theorem pyStrip_all_space (s : String) (h : ∀ c ∈ s.data, pyIsSpace c) :
    pyStrip s = "" := by
  unfold pyStrip
  rw [List.dropWhile_eq_nil_iff.mpr h]
  rfl

theorem answer_with_context_blank (llm : String → String → String)
    (q ctx : String) (h : ∀ c ∈ ctx.data, pyIsSpace c) :
    answer_with_context llm q ctx = (FALLBACK, 0) := by
  unfold answer_with_context
  rw [if_pos (pyStrip_all_space ctx h)]

/-- C1 counterexample: two chunks whose blocks are each exactly 3000
characters long both fit the 6000-character budget, but the joined output is
6005 characters because the five-character separator is not counted against
the budget, refuting the claimed bound on the returned string. -/
theorem C1_counterexample :
    ¬ ((build_context [bigA, bigB]).length ≤ MAX_CONTEXT_CHARS) := by
  have hbc : build_context [bigA, bigB] = joinSep "\n---\n" [blockOf bigA, blockOf bigB] := by
    rw [build_context, sort_big, pack_big]
  have hlen : (build_context [bigA, bigB]).length = 6005 := by
    rw [hbc, joinSep_len]
    simp [sumLen, blockOf_bigA, blockOf_bigB,
      show ("\n---\n" : String).length = 5 from rfl]
  rw [hlen]
  decide

/-- C1 (amended): for every list of retrieved chunks, the sum of the lengths
of the blocks included by `build_context` is at most `MAX_CONTEXT_CHARS`;
separators are not counted against the budget, so the returned string itself
is only bounded by `MAX_CONTEXT_CHARS` plus five characters per separator,
i.e. `MAX_CONTEXT_CHARS + 5 * (k - 1)` for `k` included blocks. -/
theorem C1_context_budget (chunks : List RetrievedChunk) :
    sumLen (packBlocks MAX_CONTEXT_CHARS (sortByScoreDesc chunks) 0) ≤ MAX_CONTEXT_CHARS ∧
    (build_context chunks).length ≤
      MAX_CONTEXT_CHARS +
        5 * ((packBlocks MAX_CONTEXT_CHARS (sortByScoreDesc chunks) 0).length - 1) := by
  have hb := packBlocks_budget MAX_CONTEXT_CHARS (sortByScoreDesc chunks) 0
    (Nat.zero_le _)
  rw [Nat.zero_add] at hb
  refine ⟨hb, ?_⟩
  rw [build_context, joinSep_len, show ("\n---\n" : String).length = 5 from rfl]
  omega

/-- C2: `build_context` renders exactly the blocks of the packed prefix of
the stable descending sort of its input: those blocks are pairwise in
descending score order, the sort is a permutation of the input, and chunks of
any fixed score keep their original relative order (stability). -/
theorem C2_sorted_stable (chunks : List RetrievedChunk) :
    build_context chunks =
      joinSep "\n---\n" ((takeFitting MAX_CONTEXT_CHARS (sortByScoreDesc chunks) 0).map blockOf) ∧
    (takeFitting MAX_CONTEXT_CHARS (sortByScoreDesc chunks) 0).Pairwise scoreGE ∧
    (sortByScoreDesc chunks).Perm chunks ∧
    ∀ s : ℚ, (sortByScoreDesc chunks).filter (scoreEq s) = chunks.filter (scoreEq s) := by
  refine ⟨?_, ?_, perm_sortByScoreDesc chunks, fun s => filter_sortByScoreDesc s chunks⟩
  · rw [build_context, packBlocks_eq_map]
  · exact pairwise_takeFitting _ _ _ (pairwise_sortByScoreDesc chunks)

/-- C3: `build_context` of the empty list is the empty string, and for every
non-empty list all of whose rendered blocks individually exceed the
6000-character budget, `build_context` is also the empty string. -/
theorem C3_empty_output :
    build_context [] = "" ∧
    ∀ chunks : List RetrievedChunk, chunks ≠ [] →
      (∀ c ∈ chunks, MAX_CONTEXT_CHARS < (blockOf c).length) →
      build_context chunks = "" :=
  ⟨rfl, fun chunks _ hbig => build_context_oversized chunks hbig⟩

/-- C3 witness: a single chunk whose block is 6007 characters long yields the
empty context. -/
theorem C3_empty_output_witness :
    ([exChunk "a" 0 6000] ≠ ([] : List RetrievedChunk)) ∧
    (∀ c ∈ [exChunk "a" 0 6000], MAX_CONTEXT_CHARS < (blockOf c).length) ∧
    build_context [exChunk "a" 0 6000] = "" := by
  have h1 : ([exChunk "a" 0 6000] : List RetrievedChunk) ≠ [] := by simp
  have h2 : ∀ c ∈ [exChunk "a" 0 6000], MAX_CONTEXT_CHARS < (blockOf c).length := by
    intro c hc
    rw [List.mem_singleton] at hc
    subst hc
    rw [blockOf_exChunk]
    decide
  exact ⟨h1, h2, C3_empty_output.2 _ h1 h2⟩

/-- C4: for every question and every context made of whitespace only
(including the empty string), `answer_with_context` returns the fixed
fallback string and performs zero chat-completion calls. -/
theorem C4_blank_context_fallback (llm : String → String → String)
    (q ctx : String) (h : ∀ c ∈ ctx.data, pyIsSpace c) :
    answer_with_context llm q ctx = (FALLBACK, 0) :=
  answer_with_context_blank llm q ctx h

/-- C4 witness: the empty context and the three-space context both produce
the fallback with zero completion calls. -/
theorem C4_blank_context_fallback_witness :
    (∀ c ∈ ("" : String).data, pyIsSpace c) ∧
    (∀ c ∈ ("   " : String).data, pyIsSpace c) ∧
    answer_with_context (fun _ _ => "x") "q" "" = (FALLBACK, 0) ∧
    answer_with_context (fun _ _ => "x") "q" "   " = (FALLBACK, 0) :=
  ⟨by decide, by decide,
   C4_blank_context_fallback _ _ _ (by decide),
   C4_blank_context_fallback _ _ _ (by decide)⟩

/-- C5: when the similarity search returns zero matches (an empty match list
or a `None` match list), `rag_answer` returns exactly the fallback answer
with an empty sources list and performs zero chat-completion calls. -/
theorem C5_no_matches (llm : String → String → String) (q : String) :
    rag_answer (fun _ => ⟨some []⟩) llm q = ({ answer := FALLBACK, sources := [] }, 0) ∧
    rag_answer (fun _ => ⟨none⟩) llm q = ({ answer := FALLBACK, sources := [] }, 0) :=
  ⟨rfl, rfl⟩

/-- C6: the sources list of `rag_answer` is the retrieval result projected to
`{filename, chunk_id, score}` in retrieval order with the score rounded half
to even at four decimal digits; in particular 0.8123456 becomes 0.8123. -/
theorem C6_sources_order_round :
    (∀ (search : String → QueryResponse) (llm : String → String → String) (q : String),
      ((rag_answer search llm q).1).sources = (retrieve_chunks (search q)).map srcOf) ∧
    round4 (mkRat 8123456 10000000) = mkRat 8123 10000 ∧
    srcOf ⟨"a.pdf", 0, "X is Y.", mkRat 8123456 10000000⟩ =
      ⟨"a.pdf", 0, mkRat 8123 10000⟩ := by
  have hr : round4 (mkRat 8123456 10000000) = mkRat 8123 10000 := by
    have hq : (mkRat 8123456 10000000 : ℚ) * 10000 = 8123456 / 1000 := by
      rw [Rat.mkRat_eq_divInt, Rat.divInt_eq_div]
      norm_num
    have hfl : ⌊(8123456 / 1000 : ℚ)⌋ = 8123 := by
      rw [Int.floor_eq_iff]
      norm_num
    have hlt : (8123456 / 1000 : ℚ) - (8123 : ℤ) < 1 / 2 := by norm_num
    rw [round4, roundHalfEven, hq, hfl]
    rw [if_pos hlt]
    rw [Rat.mkRat_eq_divInt, Rat.divInt_eq_div]
    norm_num
  exact ⟨fun _ _ _ => rfl, hr, by rw [srcOf, hr]⟩

/-- C7: a match with missing metadata fields still yields a RetrievedChunk
(no match is dropped), with the defaults "unknown", -1 and the empty string
substituted for a missing filename, chunk id and content respectively. -/
theorem C7_metadata_defaults (ms : List PineMatch) (m : PineMatch) (hm : m ∈ ms) :
    (retrieve_chunks ⟨some ms⟩).length = ms.length ∧
    parseMatch m ∈ retrieve_chunks ⟨some ms⟩ ∧
    ((m.metadata.getD {}).filename? = none → (parseMatch m).filename = "unknown") ∧
    ((m.metadata.getD {}).chunk_id? = none → (parseMatch m).chunk_id = -1) ∧
    ((m.metadata.getD {}).content? = none → (parseMatch m).content = "") := by
  refine ⟨by simp [retrieve_chunks], List.mem_map_of_mem _ hm, ?_, ?_, ?_⟩
  all_goals intro h
  all_goals simp [parseMatch, h]

/-- C7 witness: the match with no metadata at all parses to the chunk with
all three documented defaults. -/
theorem C7_metadata_defaults_witness :
    (({} : PineMatch) ∈ [({} : PineMatch)]) ∧
    (retrieve_chunks ⟨some [{}]⟩).length = 1 ∧
    parseMatch {} ∈ retrieve_chunks ⟨some [{}]⟩ ∧
    (parseMatch ({} : PineMatch)).filename = "unknown" ∧
    (parseMatch ({} : PineMatch)).chunk_id = -1 ∧
    (parseMatch ({} : PineMatch)).content = "" := by
  have hm : ({} : PineMatch) ∈ [({} : PineMatch)] := by simp
  have h := C7_metadata_defaults [{}] {} hm
  exact ⟨hm, h.1, h.2.1, h.2.2.1 rfl, h.2.2.2.1 rfl, h.2.2.2.2 rfl⟩

/-- C8: if either API key is absent, the module-level initialization fails
with an error, so the core cannot be used without both credentials. -/
theorem C8_missing_credentials (ok pk : Option String) (h : ok = none ∨ pk = none) :
    ∃ msg, initCore ok pk = Except.error msg := by
  rcases h with rfl | rfl
  · exact ⟨"OPENAI_API_KEY missing", rfl⟩
  · by_cases hok : pyFalsy ok
    · refine ⟨"OPENAI_API_KEY missing", ?_⟩
      unfold initCore
      rw [if_pos hok]
    · refine ⟨"PINECONE_API_KEY missing", ?_⟩
      unfold initCore
      rw [if_neg hok]
      rfl

/-- C8 witness: with the Pinecone key absent, initialization errors out. -/
theorem C8_missing_credentials_witness :
    ((some "k" : Option String) = none ∨ (none : Option String) = none) ∧
    ∃ msg, initCore (some "k") none = Except.error msg :=
  ⟨Or.inr rfl, C8_missing_credentials _ _ (Or.inr rfl)⟩

/-- C9: each included chunk appears whole as the block
`[filename#chunk_id]` newline content newline; included blocks are joined by
the literal separator with none at the ends (illustrated by the one-chunk and
two-chunk outputs), and every string in the packed output is the rendered
block of one of the input chunks. -/
theorem C9_block_integrity :
    build_context [⟨"doc.pdf", 3, "hello world", mkRat 9 10⟩] = "[doc.pdf#3]\nhello world\n" ∧
    build_context [⟨"a", 0, "A", mkRat 9 10⟩, ⟨"b", 1, "B", mkRat 4 10⟩] =
      "[a#0]\nA\n" ++ "\n---\n" ++ "[b#1]\nB\n" ∧
    ∀ chunks : List RetrievedChunk,
      ∀ b ∈ packBlocks MAX_CONTEXT_CHARS (sortByScoreDesc chunks) 0,
        ∃ c ∈ chunks, b = blockOf c := by
  refine ⟨by decide, by decide, ?_⟩
  intro chunks b hb
  rw [packBlocks_eq_map] at hb
  rcases List.mem_map.mp hb with ⟨c, hc, rfl⟩
  exact ⟨c, (perm_sortByScoreDesc chunks).mem_iff.mp (mem_takeFitting _ _ _ _ hc), rfl⟩

/-- C9 witness: the single block of the one-chunk example is the rendered
block of that chunk. -/
theorem C9_block_integrity_witness :
    (blockOf ⟨"doc.pdf", 3, "hello world", mkRat 9 10⟩ ∈
      packBlocks MAX_CONTEXT_CHARS
        (sortByScoreDesc [⟨"doc.pdf", 3, "hello world", mkRat 9 10⟩]) 0) ∧
    ∃ c ∈ [(⟨"doc.pdf", 3, "hello world", mkRat 9 10⟩ : RetrievedChunk)],
      blockOf (⟨"doc.pdf", 3, "hello world", mkRat 9 10⟩ : RetrievedChunk) = blockOf c :=
  ⟨by decide, C9_block_integrity.2.2 _ _ (by decide)⟩

/-- C10: when retrieval returns at least one match but every rendered block
alone exceeds the budget, `rag_answer` returns the fallback answer with zero
completion calls while `sources` still lists every match, so the fallback can
coexist with a non-empty sources list. -/
theorem C10_fallback_nonempty_sources (llm : String → String → String) (q : String)
    (hits : List RetrievedChunk) (hne : hits ≠ [])
    (hbig : ∀ c ∈ hits, MAX_CONTEXT_CHARS < (blockOf c).length) :
    rag_answer (fun _ => ⟨some (hits.map matchOf)⟩) llm q =
      ({ answer := FALLBACK, sources := hits.map srcOf }, 0) ∧
    hits.map srcOf ≠ [] := by
  constructor
  · unfold rag_answer
    rw [retrieve_chunks_matchOf hits, build_context_oversized hits hbig]
    rfl
  · simpa using hne

/-- C10 witness: one oversized chunk produces the fallback answer together
with a one-entry sources list. -/
theorem C10_fallback_nonempty_sources_witness :
    ([exChunk "b" 1 6000] ≠ ([] : List RetrievedChunk)) ∧
    (∀ c ∈ [exChunk "b" 1 6000], MAX_CONTEXT_CHARS < (blockOf c).length) ∧
    rag_answer (fun _ => ⟨some ([exChunk "b" 1 6000].map matchOf)⟩) (fun _ _ => "y") "q" =
      ({ answer := FALLBACK, sources := [exChunk "b" 1 6000].map srcOf }, 0) ∧
    [exChunk "b" 1 6000].map srcOf ≠ [] := by
  have h1 : ([exChunk "b" 1 6000] : List RetrievedChunk) ≠ [] := by simp
  have h2 : ∀ c ∈ [exChunk "b" 1 6000], MAX_CONTEXT_CHARS < (blockOf c).length := by
    intro c hc
    rw [List.mem_singleton] at hc
    subst hc
    rw [blockOf_exChunk]
    decide
  have h := C10_fallback_nonempty_sources (fun _ _ => "y") "q" _ h1 h2
  exact ⟨h1, h2, h.1, h.2⟩
